import Mathlib

/-!
# Verification of the FID codec in `process.py` (kimariyb/nmr-process)

This file shallowly embeds the two codec routines of `src/process.py`:

* `read_fid`  — decodes a binary FID buffer (little-endian 32-bit float
  words) into a three-column table `{xaxis, real, imag}`;
* `export_fid` — serialises such a table to a tab-separated text file with
  a two-line metadata header, replacing any pre-existing destination file.

Modelling conventions:

* A byte buffer is a `List Nat` (each entry one byte).  `np.frombuffer(b, "<f")`
  fails when the byte length is not a multiple of 4; otherwise it groups the
  bytes into little-endian 32-bit words.  Payload words are carried as their
  raw 32-bit patterns (`Nat`), because `read_fid` never computes with the
  float values of the payload — it only selects and reorders them.  The map
  `f32val` gives the exact IEEE-754 single-precision value of a word as an
  `Option ℚ` (`none` for infinities/NaNs, which have no rational value).
* Python float arithmetic on the time axis is modelled exactly over `ℚ`;
  `x / 0.0` raises `ZeroDivisionError` in Python, so the embedded `read_fid`
  returns an error when the sampling frequency is `0`.
* `pd.DataFrame` of a dict of arrays raises `ValueError` when the columns
  have different lengths; the embedding checks this explicitly.
-/

/-- Errors `read_fid` can raise (beyond the file-not-found check, which is
outside the byte-level model).  `bufferSize` is the `ValueError` raised by
`np.frombuffer` on a byte length that is not a multiple of the 4-byte element
size; `zeroDivision` is Python's `ZeroDivisionError` from `(data_points - 1)/sw`
with `sw = 0.0`; `columnLength` is the `ValueError` raised by `pd.DataFrame`
when the three column arrays have different lengths. -/
inductive DecodeErr where
  | bufferSize
  | zeroDivision
  | columnLength
deriving DecidableEq, Repr

/-- The decoded signal: the three columns of the `pd.DataFrame` built by
`read_fid`.  `xaxis` holds exact time values; `real` and `imag` hold the raw
32-bit word patterns of the float32 payload entries. -/
structure Signal where
  xaxis : List ℚ
  real : List Nat
  imag : List Nat
deriving DecidableEq, Repr

/-- `np.frombuffer(raw, "<f")`, word-grouping part: group bytes into
little-endian 32-bit words (byte 0 is least significant).  Only ever applied
to buffers whose length is a multiple of 4. -/
def toWords : List Nat → List Nat
  | b0 :: b1 :: b2 :: b3 :: rest =>
      (b0 + 256 * b1 + 65536 * b2 + 16777216 * b3) :: toWords rest
  | _ => []

/-- Exact value of a 32-bit word read as an IEEE-754 single-precision float
(`numpy` dtype `<f`): `none` for exponent 255 (infinities and NaNs), the
exact rational value otherwise (signed zeros both map to `0`). -/
def f32val (w : Nat) : Option ℚ :=
  let s : Nat := w / 2 ^ 31 % 2
  let e : Nat := w / 2 ^ 23 % 2 ^ 8
  let m : Nat := w % 2 ^ 23
  let sign : ℚ := if s = 1 then -1 else 1
  if e = 255 then none
  else if e = 0 then some (sign * m / 2 ^ 149)
  else if e ≤ 150 then some (sign * (2 ^ 23 + m) / 2 ^ (150 - e))
  else some (sign * (2 ^ 23 + m) * 2 ^ (e - 150))

mutual

/-- `fid_data[::2]`: the entries at even indices. -/
def everyEven : List α → List α
  | [] => []
  | x :: rest => x :: everyOdd rest

/-- `fid_data[1::2]`: the entries at odd indices. -/
def everyOdd : List α → List α
  | [] => []
  | _ :: rest => everyEven rest

end

/-- `np.linspace(a, b, n)` with default `endpoint=True`, in exact arithmetic:
`n` evenly spaced values from `a` to `b` inclusive ( `[a]` for `n = 1`). -/
def linspace (a b : ℚ) (n : Nat) : List ℚ :=
  match n with
  | 0 => []
  | 1 => [a]
  | m + 2 => (List.range (m + 2)).map (fun k : Nat => a + (k : ℚ) * (b - a) / ((m : ℚ) + 1))

/-- The decoder `read_fid` of `process.py`, on an in-memory byte buffer
(the file-existence check precedes the byte level and is not modelled).
Mirrors the source line by line: reinterpret the buffer as little-endian
float32 words, drop the first 259 header words, let
`data_points = len(fid_data)/2` (a Python float), compute
`time = (data_points - 1)/sw` (raising on `sw = 0`),
take `xaxis = np.linspace(0, time, int(data_points))`,
`real = fid_data[::2]`, `imag = fid_data[1::2]`, and build the `DataFrame`
(which requires the three columns to have equal length). -/
def read_fid (bytes : List Nat) (sw : ℚ) : Except DecodeErr Signal :=
  if bytes.length % 4 ≠ 0 then .error .bufferSize
  else
    let raw_data := toWords bytes
    let fid_data := raw_data.drop 259
    let data_points : ℚ := (fid_data.length : ℚ) / 2
    if sw = 0 then .error .zeroDivision
    else
      let time := (data_points - 1) / sw
      let xaxis := linspace 0 time (fid_data.length / 2)
      let re := everyEven fid_data
      let im := everyOdd fid_data
      if xaxis.length = re.length ∧ re.length = im.length
      then .ok ⟨xaxis, re, im⟩
      else .error .columnLength


theorem toWords_length (l : List Nat) : (toWords l).length = l.length / 4 := by
  induction l using toWords.induct with
  | case1 b0 b1 b2 b3 rest ih => simp [toWords, ih]; omega
  | case2 l h =>
    cases l with
    | nil => simp [toWords]
    | cons a t => cases t with
      | nil => simp [toWords]
      | cons b t2 => cases t2 with
        | nil => simp [toWords]
        | cons c t3 => cases t3 with
          | nil => simp [toWords]
          | cons d t4 => exact absurd rfl (h a b c d t4)

theorem toWords_append (l1 l2 : List Nat) (h : l1.length % 4 = 0) :
    toWords (l1 ++ l2) = toWords l1 ++ toWords l2 := by
  induction l1 using toWords.induct with
  | case1 b0 b1 b2 b3 rest ih =>
    have h4 : rest.length % 4 = 0 := by simp only [List.length_cons] at h; omega
    simp only [List.cons_append, toWords, List.append_eq, ih h4]
  | case2 l hl =>
    cases l with
    | nil => simp [toWords]
    | cons a t => cases t with
      | nil => simp at h
      | cons b t2 => cases t2 with
        | nil => simp at h
        | cons c t3 => cases t3 with
          | nil => simp at h
          | cons d t4 => exact absurd rfl (hl a b c d t4)

theorem toWords_replicate_zero (n : Nat) :
    toWords (List.replicate (4 * n) 0) = List.replicate n 0 := by
  induction n with
  | zero => rfl
  | succ m ih =>
    have h2 : List.replicate (4 * (m + 1)) (0 : Nat) =
        List.replicate 4 0 ++ List.replicate (4 * m) 0 := by
      rw [show 4 * (m + 1) = 4 + 4 * m by omega, List.replicate_add]
    rw [h2, toWords_append _ _ (by simp), ih]
    rfl

theorem everyEO_length (l : List α) :
    (everyEven l).length = (l.length + 1) / 2 ∧ (everyOdd l).length = l.length / 2 := by
  induction l with
  | nil => simp [everyEven, everyOdd]
  | cons x t ih =>
    refine ⟨?_, ?_⟩
    · simp only [everyEven, List.length_cons, ih.2]; omega
    · simp only [everyOdd, List.length_cons, ih.1]

theorem everyEO_getD (l : List α) (d : α) :
    (∀ k, (everyEven l).getD k d = l.getD (2 * k) d) ∧
    (∀ k, (everyOdd l).getD k d = l.getD (2 * k + 1) d) := by
  induction l with
  | nil => simp [everyEven, everyOdd]
  | cons x t ih =>
    refine ⟨?_, ?_⟩
    · intro k
      cases k with
      | zero => simp [everyEven]
      | succ n =>
        show (x :: everyOdd t).getD (n + 1) d = (x :: t).getD (2 * (n + 1)) d
        rw [List.getD_cons_succ, ih.2 n,
          show 2 * (n + 1) = (2 * n + 1) + 1 by omega, List.getD_cons_succ]
    · intro k
      show (everyEven t).getD k d = (x :: t).getD (2 * k + 1) d
      rw [ih.1 k, List.getD_cons_succ]

theorem linspace_two (a b : ℚ) (m : Nat) :
    linspace a b (m + 2) =
      (List.range (m + 2)).map (fun k : Nat => a + (k : ℚ) * (b - a) / ((m : ℚ) + 1)) := rfl

theorem linspace_length (a b : ℚ) (n : Nat) : (linspace a b n).length = n := by
  match n with
  | 0 => rfl
  | 1 => rfl
  | m + 2 => rw [linspace_two]; simp

theorem linspace_getD (a b : ℚ) (m k : Nat) (hk : k < m + 2) (d : ℚ) :
    (linspace a b (m + 2)).getD k d = a + k * (b - a) / (m + 1) := by
  rw [linspace_two, List.getD_eq_getElem?_getD, List.getElem?_map, List.getElem?_range hk]
  rfl

theorem getD_drop (l : List α) (n k : Nat) (d : α) :
    (l.drop n).getD k d = l.getD (n + k) d := by
  simp [List.getD_eq_getElem?_getD, List.getElem?_drop]

theorem read_fid_ok (bytes : List Nat) (sw : ℚ) (sig : Signal)
    (h : read_fid bytes sw = .ok sig) :
    bytes.length % 4 = 0 ∧ sw ≠ 0 ∧
    2 ∣ ((toWords bytes).drop 259).length ∧
    sig = ⟨linspace 0 (((((toWords bytes).drop 259).length : ℚ) / 2 - 1) / sw)
             (((toWords bytes).drop 259).length / 2),
           everyEven ((toWords bytes).drop 259),
           everyOdd ((toWords bytes).drop 259)⟩ := by
  simp only [read_fid] at h
  split_ifs at h with h1 h2 h3
  have hlen := h3.1
  rw [linspace_length] at hlen
  have he := everyEO_length ((toWords bytes).drop 259)
  refine ⟨by omega, h2, by omega, ?_⟩
  cases h
  rfl

/-- On a well-aligned buffer, nonzero sampling frequency and even payload,
the decoder succeeds and returns exactly the triple built by the source. -/
theorem read_fid_even (bytes : List Nat) (sw : ℚ)
    (h4 : bytes.length % 4 = 0) (hsw : sw ≠ 0)
    (heven : ((toWords bytes).drop 259).length % 2 = 0) :
    read_fid bytes sw =
      .ok ⟨linspace 0 (((((toWords bytes).drop 259).length : ℚ) / 2 - 1) / sw)
             (((toWords bytes).drop 259).length / 2),
           everyEven ((toWords bytes).drop 259),
           everyOdd ((toWords bytes).drop 259)⟩ := by
  have he := everyEO_length ((toWords bytes).drop 259)
  have hl := linspace_length (0 : ℚ)
    (((((toWords bytes).drop 259).length : ℚ) / 2 - 1) / sw)
    (((toWords bytes).drop 259).length / 2)
  simp only [read_fid]
  rw [if_neg (by omega), if_neg hsw, if_pos (by constructor <;> omega)]

/-- On a well-aligned buffer with nonzero sampling frequency and an odd
number of payload words, the decoder raises the `pd.DataFrame` column-length
`ValueError`: `real` gets one more entry than `xaxis` and `imag`. -/
theorem read_fid_odd (bytes : List Nat) (sw : ℚ)
    (h4 : bytes.length % 4 = 0) (hsw : sw ≠ 0)
    (hodd : ((toWords bytes).drop 259).length % 2 = 1) :
    read_fid bytes sw = .error .columnLength := by
  have he := everyEO_length ((toWords bytes).drop 259)
  have hl := linspace_length (0 : ℚ)
    (((((toWords bytes).drop 259).length : ℚ) / 2 - 1) / sw)
    (((toWords bytes).drop 259).length / 2)
  simp only [read_fid]
  rw [if_neg (by omega), if_neg hsw, if_neg (by intro hc; omega)]

/-! ## Claim C1 — misaligned or header-only buffers -/

/-- C1 counterexample: on the empty (0-byte) buffer the decoder does NOT
fail — it silently returns an empty Signal, contradicting the claim that
every buffer of at most 259 words fails with `MalformedInput`. -/
theorem read_fid_empty_buffer_ok : read_fid [] 1 = .ok ⟨[], [], []⟩ := rfl

/-- C1 (amended): a buffer whose byte length is not a multiple of 4 makes
the decoder fail (the `np.frombuffer` `ValueError`), but a well-aligned
buffer of at most 259 words (1036 bytes) is NOT rejected: the decoder
silently returns the empty Signal. -/
theorem read_fid_misaligned_or_short (bytes : List Nat) (sw : ℚ) (hsw : sw ≠ 0) :
    (bytes.length % 4 ≠ 0 → read_fid bytes sw = .error .bufferSize) ∧
    (bytes.length % 4 = 0 → bytes.length ≤ 1036 → read_fid bytes sw = .ok ⟨[], [], []⟩) := by
  constructor
  · intro h
    simp only [read_fid]
    rw [if_pos h]
  · intro h4 hshort
    have hnil : (toWords bytes).drop 259 = [] :=
      List.drop_eq_nil_of_le (by rw [toWords_length]; omega)
    rw [read_fid_even bytes sw h4 hsw (by rw [hnil]; rfl), hnil]
    rfl

/-- Closed witness for `read_fid_misaligned_or_short`: a 1-byte buffer is
rejected for misalignment, and a 4-byte (1-word) buffer yields the empty
Signal. -/
theorem read_fid_misaligned_or_short_witness :
    read_fid [0] 1 = .error .bufferSize ∧ read_fid [0, 0, 0, 0] 1 = .ok ⟨[], [], []⟩ :=
  ⟨(read_fid_misaligned_or_short [0] 1 one_ne_zero).1 (by decide),
   (read_fid_misaligned_or_short [0, 0, 0, 0] 1 one_ne_zero).2 (by decide) (by decide)⟩

/-! ## Claim C2 — odd number of payload words -/

/-- C2 counterexample: a buffer of 260 words (259 header words plus one
trailing payload word, `k = 0`) does not decode to a Signal of length 0 —
it raises the `pd.DataFrame` unequal-column-length `ValueError`, because
`real` receives one more entry than `xaxis` and `imag`. -/
theorem read_fid_one_trailing_word_errors :
    read_fid (List.replicate 1040 0) 1 = .error .columnLength := by
  have hw : toWords (List.replicate 1040 0) = List.replicate 260 0 := by
    have h := toWords_replicate_zero 260
    rwa [show 4 * 260 = 1040 by norm_num] at h
  apply read_fid_odd _ _ (by rw [List.length_replicate]) one_ne_zero
  rw [hw, List.drop_replicate]
  rfl

/-- C2 (amended): for every buffer of `259 + 2k + 1` words and every
positive sampling frequency, the decoder FAILS with the column-length
`ValueError` instead of returning a Signal of length `k`: the trailing
word is kept in `real` (length `k + 1`) while `xaxis` and `imag` have
length `k`, and `pd.DataFrame` rejects the mismatch. -/
theorem read_fid_odd_payload (bytes : List Nat) (sw : ℚ) (k : Nat)
    (hlen : bytes.length = 4 * (259 + 2 * k + 1)) (hsw : 0 < sw) :
    read_fid bytes sw = .error .columnLength := by
  apply read_fid_odd _ _ (by omega) hsw.ne'
  rw [List.length_drop, toWords_length]
  omega

/-- Closed witness for `read_fid_odd_payload` at `k = 0`. -/
theorem read_fid_odd_payload_witness :
    read_fid (List.replicate 1040 0) (1 / 2) = .error .columnLength :=
  read_fid_odd_payload (List.replicate 1040 0) (1 / 2) 0
    (by rw [List.length_replicate]) (by norm_num)

/-! ## Claim C3 — non-positive sampling frequency -/

/-- C3 counterexample: a strictly negative sampling frequency is NOT
rejected — the decoder happily returns a Signal (here the empty one for the
empty buffer), contradicting the claim that every `sample_rate_hz ≤ 0`
fails with `InvalidArgument`. -/
theorem read_fid_negative_rate_ok :
    (-1 : ℚ) ≤ 0 ∧ read_fid [] (-1) = .ok ⟨[], [], []⟩ := ⟨by norm_num, rfl⟩

/-- C3 (amended): only `sample_rate_hz = 0` fails, with Python's
`ZeroDivisionError` from `(data_points - 1) / sw` — after the byte-length
check (a misaligned buffer fails earlier, in `np.frombuffer`).  Negative
sampling frequencies are accepted (see the counterexample). -/
theorem read_fid_zero_rate (bytes : List Nat) :
    (bytes.length % 4 = 0 → read_fid bytes 0 = .error .zeroDivision) ∧
    (bytes.length % 4 ≠ 0 → read_fid bytes 0 = .error .bufferSize) := by
  constructor <;> intro h
  · simp only [read_fid]
    rw [if_neg (by omega)]
    simp
  · simp only [read_fid]
    rw [if_pos h]

/-- Closed witness for `read_fid_zero_rate` on a 4-byte buffer and on a
1-byte buffer. -/
theorem read_fid_zero_rate_witness :
    read_fid [0, 0, 0, 0] 0 = .error .zeroDivision ∧ read_fid [0] 0 = .error .bufferSize :=
  ⟨(read_fid_zero_rate [0, 0, 0, 0]).1 (by decide), (read_fid_zero_rate [0]).2 (by decide)⟩

/-! ## Claim C4 — header skip and de-interleaving -/

/-- C4: whenever the decoder succeeds, `real[k]` and `imag[k]` are the words
at positions `259 + 2k` and `259 + 2k + 1` of the word sequence (the first
259 words are skipped as header, the payload is de-interleaved); and on the
concrete input of 1036 zero header bytes followed by the float words
1.0, 2.0, 3.0, 4.0 with sampling frequency 2, it returns
`xaxis = [0, 1/2]`, `real = [1.0, 3.0]`, `imag = [2.0, 4.0]`
(words 1065353216, 1077936128 resp. 1073741824, 1082130432). -/
theorem read_fid_deinterleave :
    (∀ (bytes : List Nat) (sw : ℚ) (sig : Signal), read_fid bytes sw = .ok sig →
      ∀ k, k < sig.real.length →
        sig.real.getD k 0 = (toWords bytes).getD (259 + 2 * k) 0 ∧
        sig.imag.getD k 0 = (toWords bytes).getD (259 + (2 * k + 1)) 0) ∧
    read_fid (List.replicate 1036 0 ++
        [0, 0, 128, 63, 0, 0, 0, 64, 0, 0, 64, 64, 0, 0, 128, 64]) 2 =
      .ok ⟨[0, 1 / 2], [1065353216, 1077936128], [1073741824, 1082130432]⟩ ∧
    ([1065353216, 1077936128] : List Nat).map f32val = [some 1, some 3] ∧
    ([1073741824, 1082130432] : List Nat).map f32val = [some 2, some 4] := by
  refine ⟨?_, ?_, by norm_num [f32val], by norm_num [f32val]⟩
  · intro bytes sw sig h k hk
    obtain ⟨h4, hsw, heven, hsig⟩ := read_fid_ok bytes sw sig h
    subst hsig
    constructor
    · show (everyEven ((toWords bytes).drop 259)).getD k 0 = _
      rw [(everyEO_getD _ 0).1 k, getD_drop]
    · show (everyOdd ((toWords bytes).drop 259)).getD k 0 = _
      rw [(everyEO_getD _ 0).2 k, getD_drop]
  · have hw : toWords (List.replicate 1036 0 ++
        [0, 0, 128, 63, 0, 0, 0, 64, 0, 0, 64, 64, 0, 0, 128, 64]) =
        List.replicate 259 0 ++ [1065353216, 1073741824, 1077936128, 1082130432] := by
      rw [toWords_append _ _ (by rw [List.length_replicate])]
      rw [show (1036 : Nat) = 4 * 259 by norm_num, toWords_replicate_zero]
      norm_num [toWords]
    have hfid : (toWords (List.replicate 1036 0 ++
        [0, 0, 128, 63, 0, 0, 0, 64, 0, 0, 64, 64, 0, 0, 128, 64])).drop 259 =
        [1065353216, 1073741824, 1077936128, 1082130432] := by
      have hd := List.drop_left (List.replicate 259 (0 : Nat))
        [1065353216, 1073741824, 1077936128, 1082130432]
      rw [List.length_replicate] at hd
      rw [hw]
      exact hd
    rw [read_fid_even _ _ (by rw [List.length_append, List.length_replicate]; rfl)
      two_ne_zero (by rw [hfid]; rfl), hfid]
    simp only [List.length_cons, List.length_nil]
    norm_num [linspace, everyEven, everyOdd, List.range_succ]

/-- Helper: a concrete successful decode with a single complex sample,
1036 zero header bytes followed by two zero payload words. -/
theorem read_fid_small_example :
    read_fid (List.replicate 1044 0) 1 = .ok ⟨[0], [0], [0]⟩ := by
  have hw : toWords (List.replicate 1044 0) = List.replicate 261 0 := by
    have h := toWords_replicate_zero 261
    rwa [show 4 * 261 = 1044 by norm_num] at h
  have hfid : (toWords (List.replicate 1044 0)).drop 259 = List.replicate 2 0 := by
    rw [hw, List.drop_replicate]
  rw [read_fid_even _ _ (by rw [List.length_replicate]) one_ne_zero (by rw [hfid]; rfl), hfid]
  rfl

/-! ## Claim C5 — time axis values -/

/-- C5: on every successful decode with positive sampling frequency, the
time axis is `time_axis[k] = k / sw`; in particular it starts at exactly 0
and its last entry is `(N - 1) / sw` (0 when `N = 1`). -/
theorem read_fid_time_axis (bytes : List Nat) (sw : ℚ) (sig : Signal)
    (h : read_fid bytes sw = .ok sig) (hsw : 0 < sw) :
    (∀ k, k < sig.xaxis.length → sig.xaxis.getD k 0 = (k : ℚ) / sw) ∧
    (1 ≤ sig.xaxis.length → sig.xaxis.getD 0 0 = 0 ∧
      sig.xaxis.getD (sig.xaxis.length - 1) 0 =
        ((sig.xaxis.length - 1 : Nat) : ℚ) / sw) := by
  obtain ⟨h4, hsw0, heven, hsig⟩ := read_fid_ok bytes sw sig h
  subst hsig
  obtain ⟨n, hn⟩ := heven
  have hmain : ∀ k, k < ((toWords bytes).drop 259).length / 2 →
      (linspace 0 (((((toWords bytes).drop 259).length : ℚ) / 2 - 1) / sw)
        (((toWords bytes).drop 259).length / 2)).getD k 0 = (k : ℚ) / sw := by
    have hn2 : ((toWords bytes).drop 259).length / 2 = n := by omega
    have hT : ((((toWords bytes).drop 259).length : ℚ) / 2 - 1) / sw =
        ((n : ℚ) - 1) / sw := by
      rw [hn]
      push_cast
      ring_nf
    rw [hn2, hT]
    rcases n with _ | _ | m
    · omega
    · intro k hk
      have hk0 : k = 0 := by omega
      subst hk0
      simp [linspace]
    · intro k hk
      rw [linspace_getD _ _ _ _ hk]
      have hm : ((m : ℚ) + 1) ≠ 0 := by positivity
      push_cast
      field_simp
      ring
  refine ⟨?_, ?_⟩
  · show ∀ k, k < (linspace _ _ _).length → _
    rw [linspace_length]
    exact hmain
  · show 1 ≤ (linspace _ _ _).length → _
    rw [linspace_length]
    intro h1
    have hlen : (linspace 0 (((((toWords bytes).drop 259).length : ℚ) / 2 - 1) / sw)
        (((toWords bytes).drop 259).length / 2)).length =
        ((toWords bytes).drop 259).length / 2 := linspace_length _ _ _
    refine ⟨?_, ?_⟩
    · have := hmain 0 (by omega)
      simpa using this
    · have hx := hmain (((toWords bytes).drop 259).length / 2 - 1) (by omega)
      simpa [linspace_length] using hx

/-- Closed witness for `read_fid_time_axis`: the single-sample decode of
1044 zero bytes at sampling frequency 1. -/
theorem read_fid_time_axis_witness :
    (Signal.mk [0] [0] [0]).xaxis.getD 0 0 = ((0 : Nat) : ℚ) / 1 :=
  (read_fid_time_axis (List.replicate 1044 0) 1 ⟨[0], [0], [0]⟩
    read_fid_small_example one_pos).1 0 (by decide)

/-! ## Claim C6 — equal column lengths -/

/-- C6: on every successful decode, the three columns have equal length,
namely the number `N` of payload word pairs,
`N = (total_words - 259) / 2`. -/
theorem read_fid_equal_lengths (bytes : List Nat) (sw : ℚ) (sig : Signal)
    (h : read_fid bytes sw = .ok sig) :
    sig.xaxis.length = sig.real.length ∧ sig.real.length = sig.imag.length ∧
    sig.real.length = ((toWords bytes).length - 259) / 2 := by
  obtain ⟨h4, hsw, heven, hsig⟩ := read_fid_ok bytes sw sig h
  subst hsig
  have he := everyEO_length ((toWords bytes).drop 259)
  show (linspace _ _ _).length = _ ∧ _
  rw [linspace_length]
  simp only [List.length_drop] at he heven ⊢
  omega

/-- Closed witness for `read_fid_equal_lengths` on the single-sample
decode of 1044 zero bytes. -/
theorem read_fid_equal_lengths_witness :
    (Signal.mk [0] [0] [0]).xaxis.length = (Signal.mk [0] [0] [0]).real.length ∧
    (Signal.mk [0] [0] [0]).real.length = (Signal.mk [0] [0] [0]).imag.length ∧
    (Signal.mk [0] [0] [0]).real.length =
      ((toWords (List.replicate 1044 0)).length - 259) / 2 :=
  read_fid_equal_lengths (List.replicate 1044 0) 1 ⟨[0], [0], [0]⟩ read_fid_small_example

/-!
## The encoder `export_fid`

`export_fid(data, fid_path, freq)` writes a text file: if a file already
exists at `fid_path` it is deleted (`os.remove`); then the file is opened
with mode `'w'` and the two metadata lines are written; then
`data.to_csv(fid_path, sep='\t', header=None, index=False, mode='a')`
appends one tab-separated line per row.  The destination file is modelled
as `Option String` (`none` = absent) and the procedure as the list of file
operations it performs, in order.  Python's float formatting is abstracted
by a rendering function `rf : ℚ → String` for the time values and the
frequency, and `rg : Nat → String` for the float32 payload words. -/

/-- A destination-file operation performed by `export_fid`. -/
inductive FileOp where
  | remove
  | writeNew (s : String)
  | append (s : String)
deriving DecidableEq, Repr

/-- Effect of one operation on the destination file.  `remove` is
`os.remove`; `writeNew` is `open(path, 'w')` (truncate or create) together
with the writes made through it; `append` is an append-mode write, which
creates the file when it is absent. -/
def applyOp (file : Option String) : FileOp → Option String
  | .remove => none
  | .writeNew s => some s
  | .append s => some (file.getD "" ++ s)

/-- The two metadata lines `f.write(f'Frequency\t{freq}\n')` and
`f.write('Nucleus\tUnknown\n')`. -/
def headerStr (rf : ℚ → String) (freq : ℚ) : String :=
  "Frequency\t" ++ rf freq ++ "\n" ++ "Nucleus\tUnknown\n"

/-- The data rows of `data.to_csv(sep='\t', header=None, index=False)`:
one row per sample, tab-separated `xaxis`, `real`, `imag`, in that order. -/
def to_csv_rows (rf : ℚ → String) (rg : Nat → String) :
    List ℚ → List Nat → List Nat → List String
  | t :: ts, r :: rs, i :: is2 =>
      (rf t ++ "\t" ++ rg r ++ "\t" ++ rg i) :: to_csv_rows rf rg ts rs is2
  | _, _, _ => []

/-- Concatenate lines, terminating each with a newline (as `f.write` and
`to_csv` do). -/
def joinLines : List String → String
  | [] => ""
  | l :: rest => l ++ "\n" ++ joinLines rest

/-- The csv body appended by `to_csv(..., mode='a')`. -/
def csvBody (rf : ℚ → String) (rg : Nat → String) (data : Signal) : String :=
  joinLines (to_csv_rows rf rg data.xaxis data.real data.imag)

/-- The destination-file operations of `export_fid`, in program order:
conditional delete, truncating open plus header writes, csv append. -/
def export_fid_ops (rf : ℚ → String) (rg : Nat → String) (data : Signal)
    (freq : ℚ) (old : Option String) : List FileOp :=
  (if old.isSome then [FileOp.remove] else []) ++
    [FileOp.writeNew (headerStr rf freq), FileOp.append (csvBody rf rg data)]

/-- Content of the destination file after `export_fid` runs to completion,
starting from pre-existing content `old`. -/
def export_fid_file (rf : ℚ → String) (rg : Nat → String) (data : Signal)
    (freq : ℚ) (old : Option String) : Option String :=
  (export_fid_ops rf rg data freq old).foldl applyOp old

/-- The lines of the exported document: the two metadata lines followed by
one data line per sample. -/
def export_lines (rf : ℚ → String) (rg : Nat → String) (data : Signal)
    (freq : ℚ) : List String :=
  ("Frequency\t" ++ rf freq) :: "Nucleus\tUnknown" ::
    to_csv_rows rf rg data.xaxis data.real data.imag

/-! ### Lemmas about the encoder -/

theorem export_fid_file_eq (rf : ℚ → String) (rg : Nat → String) (data : Signal)
    (freq : ℚ) (old : Option String) :
    export_fid_file rf rg data freq old =
      some (headerStr rf freq ++ csvBody rf rg data) := by
  cases old <;> simp [export_fid_file, export_fid_ops, applyOp]

theorem content_eq_joinLines (rf : ℚ → String) (rg : Nat → String) (data : Signal)
    (freq : ℚ) :
    headerStr rf freq ++ csvBody rf rg data = joinLines (export_lines rf rg data freq) := by
  simp only [headerStr, csvBody, export_lines, joinLines, String.append_assoc]
  rw [show ("Nucleus\tUnknown\n" : String) = "Nucleus\tUnknown" ++ "\n" from rfl,
    String.append_assoc]

theorem to_csv_rows_length (rf : ℚ → String) (rg : Nat → String)
    (ts : List ℚ) (rs is2 : List Nat) :
    (to_csv_rows rf rg ts rs is2).length = min ts.length (min rs.length is2.length) := by
  induction ts, rs, is2 using to_csv_rows.induct rf rg with
  | case1 t ts rs2 r i is3 ih => simp [to_csv_rows, ih]; omega
  | case2 ts rs is3 h =>
    match ts, rs, is3 with
    | [], _, _ => simp [to_csv_rows]
    | _ :: _, [], _ => simp [to_csv_rows]
    | _ :: _, _ :: _, [] => simp [to_csv_rows]
    | t :: ts, r :: rs, i :: is4 => exact (h t ts r rs i is4 rfl rfl rfl).elim

theorem to_csv_rows_getD (rf : ℚ → String) (rg : Nat → String)
    (ts : List ℚ) (rs is2 : List Nat) (k : Nat)
    (hk : k < (to_csv_rows rf rg ts rs is2).length) :
    (to_csv_rows rf rg ts rs is2).getD k "" =
      rf (ts.getD k 0) ++ "\t" ++ rg (rs.getD k 0) ++ "\t" ++ rg (is2.getD k 0) := by
  induction ts, rs, is2 using to_csv_rows.induct rf rg generalizing k with
  | case1 t ts rs2 r i is3 ih =>
    cases k with
    | zero => simp [to_csv_rows]
    | succ n =>
      simp only [to_csv_rows, List.length_cons] at hk ⊢
      rw [List.getD_cons_succ, List.getD_cons_succ, List.getD_cons_succ,
        List.getD_cons_succ, ih n (by omega)]
  | case2 ts rs is3 h =>
    exfalso
    match ts, rs, is3 with
    | [], _, _ => simp [to_csv_rows] at hk
    | _ :: _, [], _ => simp [to_csv_rows] at hk
    | _ :: _, _ :: _, [] => simp [to_csv_rows] at hk
    | t :: ts, r :: rs, i :: is4 => exact (h t ts r rs i is4 rfl rfl rfl).elim

/-! ## Claim C7 — exported document format -/

/-- C7: the exported document is the two metadata lines
`Frequency\t<freq>` and `Nucleus\tUnknown` followed by exactly one
tab-separated line per sample — `time`, `real`, `imag` in that order —
each line newline-terminated, with nothing after the data lines. -/
theorem export_fid_format (rf : ℚ → String) (rg : Nat → String) (data : Signal)
    (freq : ℚ) (h1 : data.xaxis.length = data.real.length)
    (h2 : data.real.length = data.imag.length) :
    headerStr rf freq ++ csvBody rf rg data = joinLines (export_lines rf rg data freq) ∧
    (export_lines rf rg data freq).getD 0 "" = "Frequency\t" ++ rf freq ∧
    (export_lines rf rg data freq).getD 1 "" = "Nucleus\tUnknown" ∧
    (export_lines rf rg data freq).length = 2 + data.real.length ∧
    ∀ k, k < data.real.length →
      (export_lines rf rg data freq).getD (2 + k) "" =
        rf (data.xaxis.getD k 0) ++ "\t" ++ rg (data.real.getD k 0) ++ "\t" ++
          rg (data.imag.getD k 0) := by
  refine ⟨content_eq_joinLines rf rg data freq, rfl, rfl, ?_, ?_⟩
  · show (_ :: _ :: to_csv_rows rf rg data.xaxis data.real data.imag).length = _
    rw [List.length_cons, List.length_cons, to_csv_rows_length]
    omega
  · intro k hk
    show (_ :: _ :: to_csv_rows rf rg data.xaxis data.real data.imag).getD (2 + k) "" = _
    rw [show 2 + k = (k + 1) + 1 from by omega, List.getD_cons_succ, List.getD_cons_succ,
      to_csv_rows_getD _ _ _ _ _ _ (by rw [to_csv_rows_length]; omega)]

/-- Closed witness for `export_fid_format`: a one-sample signal with
constant renderers; its single data line is `q\tw\tw`. -/
theorem export_fid_format_witness :
    (export_lines (fun _ => "q") (fun _ => "w") ⟨[0], [0], [0]⟩ 0).getD 2 "" =
      "q" ++ "\t" ++ "w" ++ "\t" ++ "w" :=
  (export_fid_format (fun _ => "q") (fun _ => "w") ⟨[0], [0], [0]⟩ 0 rfl rfl).2.2.2.2
    0 (by decide)

/-! ## Claim C8 — full replacement of pre-existing content -/

/-- C8: whatever the pre-existing content of the destination (including
none at all), the final file content is exactly the encoded document —
header plus csv body — with no residue of the old content. -/
theorem export_fid_replaces (rf : ℚ → String) (rg : Nat → String) (data : Signal)
    (freq : ℚ) :
    ∀ old : Option String,
      export_fid_file rf rg data freq old =
        some (headerStr rf freq ++ csvBody rf rg data) ∧
      export_fid_file rf rg data freq old = export_fid_file rf rg data freq none := by
  intro old
  refine ⟨export_fid_file_eq rf rg data freq old, ?_⟩
  rw [export_fid_file_eq, export_fid_file_eq]

/-! ## Claim C9 — the nucleus line is the constant `Nucleus\tUnknown` -/

/-- C9: `export_fid` takes no nucleus argument (see its parameters: data,
renderers, frequency, prior file state only), and for every call the second
line of the exported document is exactly `Nucleus\tUnknown`. -/
theorem export_fid_nucleus_constant (rf : ℚ → String) (rg : Nat → String)
    (data : Signal) (freq : ℚ) (old : Option String) :
    export_fid_file rf rg data freq old =
      some (joinLines (export_lines rf rg data freq)) ∧
    (export_lines rf rg data freq).getD 1 "" = "Nucleus\tUnknown" := by
  refine ⟨?_, rfl⟩
  rw [export_fid_file_eq, content_eq_joinLines]

/-! ## Claim C10 — replacement by prior deletion, not atomic -/

/-- C10: with pre-existing content `c`, the first operation `export_fid`
performs is the deletion; stopping after any proper prefix of the
operations leaves the destination either absent (after the delete) or
holding only the header (after the truncating open + header writes) — in
particular never the previous content. -/
theorem export_fid_not_atomic (rf : ℚ → String) (rg : Nat → String) (data : Signal)
    (freq : ℚ) (c : String) (hc : c ≠ headerStr rf freq) :
    (export_fid_ops rf rg data freq (some c)).head? = some FileOp.remove ∧
    ((export_fid_ops rf rg data freq (some c)).take 1).foldl applyOp (some c) = none ∧
    ((export_fid_ops rf rg data freq (some c)).take 2).foldl applyOp (some c) =
      some (headerStr rf freq) ∧
    ∀ k, 0 < k → k < (export_fid_ops rf rg data freq (some c)).length →
      ((export_fid_ops rf rg data freq (some c)).take k).foldl applyOp (some c) ≠
        some c := by
  have hops : export_fid_ops rf rg data freq (some c) =
      [FileOp.remove, FileOp.writeNew (headerStr rf freq),
       FileOp.append (csvBody rf rg data)] := by
    simp [export_fid_ops]
  refine ⟨by rw [hops]; rfl, by rw [hops]; rfl, by rw [hops]; rfl, ?_⟩
  intro k h0 hlen
  rw [hops] at hlen ⊢
  simp only [List.length_cons, List.length_nil] at hlen
  interval_cases k
  · intro h
    simp [applyOp] at h
  · intro h
    simp [applyOp] at h
    exact hc h.symm

/-- Closed witness for `export_fid_not_atomic`: pre-existing content `"x"`,
empty signal, constant renderers; after the delete the file is absent. -/
theorem export_fid_not_atomic_witness :
    ((export_fid_ops (fun _ => "") (fun _ => "") ⟨[], [], []⟩ 0 (some "x")).take 1).foldl
      applyOp (some "x") = none :=
  (export_fid_not_atomic (fun _ => "") (fun _ => "") ⟨[], [], []⟩ 0 "x" (by decide)).2.1
